import Mathlib

/-
Verification of the juniper-syslog-filter pipeline.

Python strings are embedded as `List Char`; CSV rows as `List String`;
a raw CSV file as `List (List String)` whose first element, when present,
is the header row.  Fallible code (Python exceptions) is embedded with
`Except String`.  All definitions are structurally recursive and
executable.
-/

namespace JSF

/-- Characters stripped by Python str.strip (ASCII whitespace). -/
def pyIsSpace (c : Char) : Bool :=
  c = ' ' || c = '\t' || c = '\n' || c = '\r' || c = '\x0b' || c = '\x0c'

/-- Python str.strip: remove leading and trailing whitespace. -/
def pyStrip (s : List Char) : List Char :=
  ((s.dropWhile pyIsSpace).reverse.dropWhile pyIsSpace).reverse

/-- Python str.split with a single-character separator: `"a.b".split(".")`. -/
def splitOnChar (sep : Char) : List Char → List (List Char)
  | [] => [[]]
  | c :: rest =>
    if c = sep then [] :: splitOnChar sep rest
    else
      match splitOnChar sep rest with
      | [] => [[c]]
      | t :: ts => (c :: t) :: ts

/-- Tail of a Python integer literal body: digits, with single underscores
allowed between digits (Python 3 int() accepts "1_0"). -/
def pyDigitsRest : List Char → Bool
  | [] => true
  | '_' :: c :: rest => c.isDigit && pyDigitsRest rest
  | c :: rest => c.isDigit && pyDigitsRest rest

/-- Body of a Python integer literal: at least one digit, then digits with
optional single underscores between them. -/
def pyIntBody : List Char → Bool
  | [] => false
  | c :: rest => c.isDigit && pyDigitsRest rest

/-- Numeric value of a digit string, ignoring underscores. -/
def digitsVal (s : List Char) : Nat :=
  s.foldl (fun a c => if c = '_' then a else a * 10 + (c.toNat - '0'.toNat)) 0

/-- Python int(str) on ASCII input: surrounding whitespace is stripped, an
optional sign is allowed, then decimal digits optionally grouped with
underscores.  Returns none where int() raises ValueError. -/
def pyInt (s : List Char) : Option Int :=
  match pyStrip s with
  | '+' :: rest => if pyIntBody rest then some (digitsVal rest) else none
  | '-' :: rest => if pyIntBody rest then some (-(digitsVal rest : Int)) else none
  | t => if pyIntBody t then some (digitsVal t) else none

/-- Range check and private-range tests of is_private_ip on the parsed
octet list (the body of the source after int conversion succeeded): all
octets in 0..255, then 10/8, 172.16/12, 192.168/16 in order. -/
def privateRangeTest (octets : List Int) : Bool :=
  if octets.all (fun o => decide (0 ≤ o ∧ o ≤ 255)) then
    match octets with
    | o0 :: o1 :: _ =>
      if o0 = 10 then true
      else if o0 = 172 ∧ 16 ≤ o1 ∧ o1 ≤ 31 then true
      else if o0 = 192 ∧ o1 = 168 then true
      else false
    | _ => false
  else false

/-- Embedding of is_private_ip (src/modules/classify_ip.py).  The source
returns False for empty or whitespace-only input, splits on ".", requires
exactly 4 parts, converts each with int() (ValueError caught, returning
False), then applies privateRangeTest to the octets. -/
def is_private_ip (ip : List Char) : Bool :=
  if pyStrip ip = [] then false
  else if (splitOnChar '.' ip).length ≠ 4 then false
  else
    match (splitOnChar '.' ip).mapM pyInt with
    | none => false
    | some octets => privateRangeTest octets

/-- Embedding of classify_ip_address (src/modules/classify_ip.py): empty or
whitespace-only input gives "", otherwise "private" or "global" according
to is_private_ip. -/
def classify_ip_address (ip : List Char) : String :=
  if pyStrip ip = [] then ""
  else if is_private_ip ip then "private" else "global"

/-- Specification-side guard: a parsed part list is a well-formed quad when
it has 4 octets, all in 0..255. -/
def quadGuard (l : List Int) : Option (List Int) :=
  if l.length == 4 && l.all (fun o => decide (0 ≤ o ∧ o ≤ 255)) then some l
  else none

/-- Specification-side notion of a well-formed quad as the code parses it:
4 dot-separated parts, each accepted by Python int() with value in 0..255;
returns the parsed octet values. -/
def pyOctets (s : List Char) : Option (List Int) :=
  match (splitOnChar '.' s).mapM pyInt with
  | some l => quadGuard l
  | none => none

/-- Specification-side private-range test on a parsed octet list. -/
def specPrivate (l : List Int) : Bool :=
  match l with
  | o0 :: o1 :: _ =>
    decide (o0 = 10 ∨ (o0 = 172 ∧ 16 ≤ o1 ∧ o1 ≤ 31) ∨ (o0 = 192 ∧ o1 = 168))
  | _ => false

/-- Specification-side strict dotted quad, following the claim text: exactly
4 dot-separated nonempty all-digit octets, each of value at most 255;
returns the octet values. -/
def strictQuad (s : List Char) : Option (List Int) :=
  if (splitOnChar '.' s).length == 4 &&
      (splitOnChar '.' s).all (fun p => !p.isEmpty && p.all Char.isDigit && decide (digitsVal p ≤ 255)) then
    some ((splitOnChar '.' s).map (fun p => (digitsVal p : Int)))
  else none

/-- Python split on the three-character separator " > ": greedy, leftmost,
non-overlapping. -/
def pySplitGT : List Char → List (List Char)
  | [] => [[]]
  | ' ' :: '>' :: ' ' :: rest => [] :: pySplitGT rest
  | c :: rest =>
    match pySplitGT rest with
    | [] => [[c]]
    | t :: ts => (c :: t) :: ts

/-- The delimiter " > " used by split_routing. -/
def sepGT : List Char := [' ', '>', ' ']

/-- Embedding of split_routing (src/modules/split_ip.py): empty or
whitespace-only input gives ("", ""); otherwise the string is split on
" > "; exactly two parts are stripped and returned, anything else gives
("", ""). -/
def split_routing (routing : List Char) : List Char × List Char :=
  if pyStrip routing = [] then ([], [])
  else
    match pySplitGT routing with
    | [p, q] => (pyStrip p, pyStrip q)
    | _ => ([], [])

/-- Does pat occur as a contiguous subsequence (Python substring)? -/
def containsSeq (pat : List Char) : List Char → Bool
  | [] => pat.isEmpty
  | c :: rest => pat.isPrefixOf (c :: rest) || containsSeq pat rest

/-- A CSV data row. -/
abbrev Row := List String

/-- Word character for the regex class backslash-w (ASCII fragment). -/
def isWordChar (c : Char) : Bool := c.isAlphanum || c = '_'

/-- re.search for a pattern made of a literal key followed by one capture
group of one-or-more characters of a class: leftmost match wins, and the
captured run is greedy.  Models pandas Series.str.extract with the source
patterns protocol=(backslash-w+), SeverityLevel=(backslash-d+) and
Severity=(backslash-w+). -/
def searchKeyVal (key : List Char) (cls : Char → Bool) : List Char → Option (List Char)
  | [] => none
  | c :: rest =>
    if key.isPrefixOf (c :: rest) then
      let run := ((c :: rest).drop key.length).takeWhile cls
      if run.isEmpty then searchKeyVal key cls rest else some run
    else searchKeyVal key cls rest

/-- Match backslash-d-repeated-1-to-3 at the head of the input, in a position
where the regex continues with a non-digit literal: this is equivalent to
taking the whole digit run when its length is 1..3, since any shorter greedy
backtrack would leave a digit where the non-digit literal is required. -/
def matchOctet (s : List Char) : Option (List Char × List Char) :=
  let run := s.takeWhile Char.isDigit
  if 1 ≤ run.length ∧ run.length ≤ 3 then some (run, s.drop run.length) else none

/-- Match one literal character at the head. -/
def matchLit (c : Char) : List Char → Option (List Char)
  | [] => none
  | d :: rest => if d = c then some rest else none

/-- Match a dotted quad (four 1..3-digit runs separated by dots); returns the
matched text and the remainder. -/
def matchQuad (s : List Char) : Option (List Char × List Char) := do
  let (o1, s1) ← matchOctet s
  let s2 ← matchLit '.' s1
  let (o2, s3) ← matchOctet s2
  let s4 ← matchLit '.' s3
  let (o3, s5) ← matchOctet s4
  let s6 ← matchLit '.' s5
  let (o4, s7) ← matchOctet s6
  pure (o1 ++ '.' :: o2 ++ '.' :: o3 ++ '.' :: o4, s7)

/-- Match a nonempty digit run (backslash-d+ followed in the pattern by a
non-digit or the end), returning the remainder. -/
def matchDigits (s : List Char) : Option (List Char) :=
  let run := s.takeWhile Char.isDigit
  if run.isEmpty then none else some (s.drop run.length)

/-- Try ROUTING_PATTERN of src/modules/extract_routing.py at one position:
quad/digits, the literal " > ", quad/digits; returns the two captured
quads. -/
def matchRoutingAt (s : List Char) : Option (List Char × List Char) := do
  let (q1, s1) ← matchQuad s
  let s2 ← matchLit '/' s1
  let s3 ← matchDigits s2
  let s4 ← matchLit ' ' s3
  let s5 ← matchLit '>' s4
  let s6 ← matchLit ' ' s5
  let (q2, s7) ← matchQuad s6
  let s8 ← matchLit '/' s7
  let _ ← matchDigits s8
  pure (q1, q2)

/-- re.search with ROUTING_PATTERN: try every start position left to
right. -/
def searchRouting : List Char → Option (List Char × List Char)
  | [] => none
  | c :: rest =>
    match matchRoutingAt (c :: rest) with
    | some r => some r
    | none => searchRouting rest

/-- Embedding of extract_routing_from_message (src/modules/extract_routing.py):
on a ROUTING_PATTERN match, return "src > dst" with the ports dropped;
otherwise none. -/
def extract_routing_from_message (message : String) : Option String :=
  (searchRouting message.toList).map fun p => String.mk (p.1 ++ sepGT ++ p.2)

/-- Row transform of extract_routing_from_csv for a data row of width at
least 4: insert the extracted routing (empty string when the pattern does
not match) before the Message column at index 3. -/
def routingRow (row : Row) : Row :=
  row.take 3 ++ [(extract_routing_from_message (row.getD 3 "")).getD ""] ++ [row.getD 3 ""]

/-- Embedding of extract_routing_from_csv (src/modules/extract_routing.py) on
the parsed rows of one file.  A blank first line gives an empty header list,
which the source skips writing (Python falsiness); data rows narrower than 4
columns are silently dropped; a nonempty header narrower than 4 raises
IndexError, wrapped into ExtractRoutingError. -/
def extract_routing_from_csv (file : List Row) : Except String (List Row) :=
  match file with
  | [] => .ok []
  | header :: rows =>
    let body := rows.filterMap fun r => if 4 ≤ r.length then some (routingRow r) else none
    if header.isEmpty then .ok body
    else if 4 ≤ header.length then
      .ok ((header.take 3 ++ ["routing"] ++ [header.getD 3 ""]) :: body)
    else .error "ExtractRoutingError: IndexError"

/-- Row transform of split_ip_from_csv for a data row of width at least 5:
insert srcIP and dstIP, split out of the routing column at index 3, before
the Message column at index 4. -/
def splitIpRow (row : Row) : Row :=
  let p := split_routing (row.getD 3 "").toList
  row.take 4 ++ [String.mk p.1, String.mk p.2] ++ [row.getD 4 ""]

/-- Embedding of split_ip_from_csv (src/modules/split_ip.py), with the same
conventions as extract_routing_from_csv; data rows need width 5, the header
indexes position 4. -/
def split_ip_from_csv (file : List Row) : Except String (List Row) :=
  match file with
  | [] => .ok []
  | header :: rows =>
    let body := rows.filterMap fun r => if 5 ≤ r.length then some (splitIpRow r) else none
    if header.isEmpty then .ok body
    else if 5 ≤ header.length then
      .ok ((header.take 4 ++ ["srcIP", "dstIP"] ++ [header.getD 4 ""]) :: body)
    else .error "SplitIPError: IndexError"

/-- Row transform of classify_ip_from_csv for a data row of width at least 7:
classify srcIP (index 4) and dstIP (index 5) and insert the types after each
address. -/
def classifyRow (row : Row) : Row :=
  row.take 5 ++ [classify_ip_address (row.getD 4 "").toList] ++ [row.getD 5 ""]
    ++ [classify_ip_address (row.getD 5 "").toList] ++ [row.getD 6 ""]

/-- Embedding of classify_ip_from_csv (src/modules/classify_ip.py), with the
same conventions; data rows need width 7, the header indexes positions 5
and 6. -/
def classify_ip_from_csv (file : List Row) : Except String (List Row) :=
  match file with
  | [] => .ok []
  | header :: rows =>
    let body := rows.filterMap fun r => if 7 ≤ r.length then some (classifyRow r) else none
    if header.isEmpty then .ok body
    else if 7 ≤ header.length then
      .ok ((header.take 5 ++ ["srcIP_type"] ++ [header.getD 5 ""]
            ++ ["dstIP_type"] ++ [header.getD 6 ""]) :: body)
    else .error "ClassifyIPError: IndexError"

/-- A pandas DataFrame as read by read_csv with keep_default_na=False: a
named header and the data rows, all cells plain text. -/
structure PTable where
  header : List String
  rows : List Row
deriving DecidableEq

/-- Body of the per-file loop of the pandas extraction stages
(extract_protocol.py, extract_severity_level.py, extract_severity.py): check
the Message column exists (else the stage error), compute the regex capture
of each Message cell (empty string when absent, modelling fillna), and place
the new column immediately before Message (the source appends the column and
then reorders, which nets to this insertion when the column name is fresh,
as it is for every pipeline schema). -/
def addColBeforeMessage (colName : String) (extract : String → Option String)
    (t : PTable) : Except String PTable :=
  if "Message" ∈ t.header then
    .ok { header := t.header.insertIdx (t.header.indexOf "Message") colName,
          rows := t.rows.map fun row =>
            row.insertIdx (t.header.indexOf "Message")
              ((extract (row.getD (t.header.indexOf "Message") "")).getD "") }
  else .error "SchemaError: Message column not found"

/-- Per-table core of extract_protocol (src/modules/extract_protocol.py) with
the default pattern protocol=(backslash-w+). -/
def extract_protocol_table : PTable → Except String PTable :=
  addColBeforeMessage "protocol" fun msg =>
    (searchKeyVal "protocol=".toList isWordChar msg.toList).map String.mk

/-- Per-table core of extract_severity_level
(src/modules/extract_severity_level.py), pattern
SeverityLevel=(backslash-d+). -/
def extract_severity_level_table : PTable → Except String PTable :=
  addColBeforeMessage "SeverityLevel" fun msg =>
    (searchKeyVal "SeverityLevel=".toList Char.isDigit msg.toList).map String.mk

/-- Per-table core of extract_severity (src/modules/extract_severity.py),
pattern Severity=(backslash-w+). -/
def extract_severity_table : PTable → Except String PTable :=
  addColBeforeMessage "Severity" fun msg =>
    (searchKeyVal "Severity=".toList isWordChar msg.toList).map String.mk

/-- Python substring test on whole strings. -/
def pyInStr (needle hay : String) : Bool := containsSeq needle.toList hay.toList

/-- Embedding of filter_csv_by_keyword (src/modules/filter_keyword.py) on the
parsed rows of one file: a file with no rows at all raises FilterError; the
first row is the header; data rows are kept when they have more than 6 cells
and cell 6 (Message) contains the keyword.  The output file content (always
written, header first) is returned together with the count of kept rows. -/
def filter_csv_by_keyword (keyword : String) (file : List Row) :
    Except String (List Row × Nat) :=
  match file with
  | [] => .error "FilterError: CSV file is empty"
  | header :: rows =>
    let filtered := rows.filter fun row =>
      decide (6 < row.length) && pyInStr keyword (row.getD 6 "")
    .ok (header :: filtered, filtered.length)

/-- Embedding of filter_keyword (src/modules/filter_keyword.py): per-file
errors are caught and counted, successful files contribute their kept-row
counts; the total is returned. -/
def filter_keyword (keyword : String) (files : List (List Row)) : Nat :=
  files.foldl (fun total f =>
    match filter_csv_by_keyword keyword f with
    | .ok (_, n) => total + n
    | .error _ => total) 0

/-- Row transform of reduce_csv_columns (src/modules/reduce_columns.py): the
Python comprehension keeps, in keep_columns order, the requested positions
that are in range for this row. -/
def reduceRow (keepColumns : List Nat) (row : Row) : Row :=
  (keepColumns.filter fun i => decide (i < row.length)).map fun i => row.getD i ""

/-- Embedding of reduce_csv_columns on the parsed rows of one file: every
row, header included, is projected; nothing ever raises for out-of-range
positions. -/
def reduce_csv_columns (keepColumns : List Nat) (file : List Row) : List Row :=
  file.map (reduceRow keepColumns)

/-- Severity cell of a row under a header, as pandas column access by the
label "Severity". -/
def severityCell (hdr : List String) (row : Row) : String :=
  row.getD (hdr.indexOf "Severity") ""

/-- Rows of one table whose Severity cell equals the target, exactly and
case-sensitively (pandas == comparison). -/
def filterTableBySeverity (target : String) (t : PTable) : List Row :=
  t.rows.filter fun row => severityCell t.header row = target

/-- Loop of filter_and_merge_critical over the input files: each table must
have a Severity column (else FilterCriticalError); tables contributing at
least one matching row are collected in order. -/
def filterMergeAux (target : String) : List PTable → Except String (List (List Row))
  | [] => .ok []
  | t :: ts =>
    if "Severity" ∈ t.header then do
      let rest ← filterMergeAux target ts
      let f := filterTableBySeverity target t
      pure (if f.isEmpty then rest else f :: rest)
    else .error "FilterCriticalError: Severity column not found"

/-- Body of filter_and_merge_critical (src/modules/filter_critical_and_merge.py)
generalized over the severity value the source hardcodes: an empty input list
returns none (the source returns None before touching any file); when no
table contributes a matching row, none is returned and no file is written;
otherwise the concatenation of all retained rows, the content of the single
output file, is returned. -/
def filterMergeBySeverity (target : String) (tables : List PTable) :
    Except String (Option (List Row)) :=
  if tables.isEmpty then .ok none
  else
    match filterMergeAux target tables with
    | .error e => .error e
    | .ok dfs => if dfs.isEmpty then .ok none else .ok (some dfs.flatten)

/-- Embedding of filter_and_merge_critical: the source fixes the target
severity to "CRITICAL". -/
def filter_and_merge_critical (tables : List PTable) : Except String (Option (List Row)) :=
  filterMergeBySeverity "CRITICAL" tables

/-- One input file of merge_csv_files: its name and its raw parsed rows (the
first row, when present, is its header). -/
structure MFile where
  name : String
  rows : List Row
deriving DecidableEq

/-- Code-point lexicographic order on character lists, the order Python uses
to compare path strings. -/
def charListLe : List Char → List Char → Bool
  | [], _ => true
  | _ :: _, [] => false
  | a :: as, b :: bs => if a = b then charListLe as bs else decide (a < b)

/-- Lexicographic comparison of file names. -/
def nameLe (a b : String) : Bool := charListLe a.toList b.toList

/-- Stable insertion into a name-sorted list. -/
def insertByName (f : MFile) : List MFile → List MFile
  | [] => [f]
  | g :: gs => if nameLe f.name g.name then f :: g :: gs else g :: insertByName f gs

/-- Python sorted(input_files): stable sort by file name. -/
def sortByName : List MFile → List MFile
  | [] => []
  | f :: fs => insertByName f (sortByName fs)

/-- Writer state of the merge loop: finished chunks in order, the open chunk
(header row included) with its data-row count, and the saved header. -/
structure MergeState where
  chunks : List (List Row)
  cur : Option (List Row)
  count : Nat
  header : Option Row
deriving DecidableEq

/-- Body of the inner row loop of merge_csv_files: when no file is open or
the open file reached max_rows, the open chunk is closed and a new one is
started with the saved header; then the data row is appended. -/
def writeRow (maxRows : Nat) (st : MergeState) (r : Row) : MergeState :=
  match st.cur with
  | none =>
    { chunks := st.chunks, cur := some [st.header.getD [], r], count := 1,
      header := st.header }
  | some c =>
    if maxRows ≤ st.count then
      { chunks := st.chunks ++ [c], cur := some [st.header.getD [], r], count := 1,
        header := st.header }
    else
      { chunks := st.chunks, cur := some (c ++ [r]), count := st.count + 1,
        header := st.header }

/-- Body of the outer file loop of merge_csv_files: a file with no rows at
all is skipped (next(reader, None) is None); otherwise its first row is the
file header, saved as the global header when none is saved yet, and every
remaining row is written. -/
def processFile (maxRows : Nat) (st : MergeState) (f : MFile) : MergeState :=
  match f.rows with
  | [] => st
  | fileHeader :: dataRows =>
    let st1 :=
      if st.header.isNone then
        { chunks := st.chunks, cur := st.cur, count := st.count,
          header := some fileHeader }
      else st
    dataRows.foldl (writeRow maxRows) st1

/-- Initial state of the merge loop. -/
def initMergeState : MergeState :=
  { chunks := [], cur := none, count := 0, header := none }

/-- Embedding of merge_csv_files (src/modules/merge_files.py): the input
files are processed in sorted name order and the resulting chunk contents,
one per output file merged_NNN.csv, are returned in creation order. -/
def mergeCsvFiles (files : List MFile) (maxRows : Nat) : List (List Row) :=
  let final := (sortByName files).foldl (processFile maxRows) initMergeState
  match final.cur with
  | none => final.chunks
  | some c => final.chunks ++ [c]

/-- Header of the first input file having at least one raw row, in the given
order. -/
def firstHeader (files : List MFile) : Option Row :=
  files.findSome? fun f => f.rows.head?

/-- All data rows written so far: the data parts of the finished chunks
followed by the data part of the open chunk. -/
def allData (st : MergeState) : List Row :=
  (st.chunks.map List.tail).flatten ++
    (match st.cur with
     | none => []
     | some c => c.tail)

/-- Invariant of the merge loop: before any row is written there are no
chunks; afterwards the saved header heads the open chunk and every finished
chunk, the row count matches the open chunk's data rows, every chunk is
nonempty, and (for a positive ceiling) the open chunk holds at most maxRows
data rows while every finished chunk holds exactly maxRows. -/
def MergeInv (maxRows : Nat) (st : MergeState) : Prop :=
  match st.cur with
  | none => st.chunks = []
  | some c =>
    ∃ h d, st.header = some h ∧ c = h :: d ∧ st.count = d.length ∧ 1 ≤ d.length ∧
      (1 ≤ maxRows → d.length ≤ maxRows) ∧
      ∀ ch ∈ st.chunks, ∃ e, ch = h :: e ∧ 1 ≤ e.length ∧ (1 ≤ maxRows → e.length = maxRows)

/-!  Helper lemmas. -/

theorem dropWhile_all_false {α : Type} (p : α → Bool) (s : List α)
    (h : ∀ c ∈ s, p c = false) : s.dropWhile p = s := by
  cases s with
  | nil => rfl
  | cons c t => simp [List.dropWhile, h c (by simp)]

theorem pyStrip_eq_nil_iff (s : List Char) :
    pyStrip s = [] ↔ ∀ c ∈ s, pyIsSpace c = true := by
  unfold pyStrip
  rw [List.reverse_eq_nil_iff, List.dropWhile_eq_nil_iff]
  constructor
  · intro h c hc
    rw [← List.takeWhile_append_dropWhile (p := pyIsSpace) (l := s)] at hc
    rcases List.mem_append.1 hc with h1 | h2
    · exact List.mem_takeWhile_imp h1
    · exact h c (List.mem_reverse.2 h2)
  · intro h c hc
    exact h c (List.Sublist.mem (List.mem_reverse.1 hc) (List.dropWhile_sublist pyIsSpace))

theorem pyStrip_no_space (s : List Char) (h : ∀ c ∈ s, pyIsSpace c = false) :
    pyStrip s = s := by
  unfold pyStrip
  rw [dropWhile_all_false _ s h,
    dropWhile_all_false _ s.reverse (fun c hc => h c (List.mem_reverse.1 hc)),
    List.reverse_reverse]

theorem pySplitGT_cons_ne (c : Char) (rest : List Char)
    (h : ∀ r, c = ' ' → rest = '>' :: ' ' :: r → False) :
    pySplitGT (c :: rest) = match pySplitGT rest with
      | [] => [[c]]
      | t :: ts => (c :: t) :: ts := by
  rw [pySplitGT.eq_def]
  split
  · simp_all
  · rename_i r heq
    injection heq with h1 h2
    exact (h r h1 h2).elim
  · rename_i a b d e heq
    injection heq with h1 h2
    subst h1; subst h2
    rfl

theorem pySplitGT_ne_nil (s : List Char) : pySplitGT s ≠ [] := by
  induction s using pySplitGT.induct with
  | case1 => simp [pySplitGT]
  | case2 rest ih => simp [pySplitGT]
  | case3 c rest h1 h2 ih => rw [pySplitGT_cons_ne c rest h1, h2]; simp
  | case4 c rest h1 t ts h2 ih => rw [pySplitGT_cons_ne c rest h1, h2]; simp

theorem pySplitGT_no_space (s : List Char) :
    (∀ c ∈ s, c ≠ ' ') → pySplitGT s = [s] := by
  induction s using pySplitGT.induct with
  | case1 => intro h; rfl
  | case2 rest ih => intro h; exact absurd rfl (h ' ' (by simp))
  | case3 c rest h1 h2 ih => intro h; exact absurd h2 (pySplitGT_ne_nil rest)
  | case4 c rest h1 t ts h2 ih =>
    intro h
    have hr := ih (fun x hx => h x (List.mem_cons_of_mem c hx))
    rw [h2] at hr
    rw [pySplitGT_cons_ne c rest h1, h2]
    injection hr with e1 e2
    rw [e1, e2]

theorem pySplitGT_no_gt (s : List Char) :
    (∀ c ∈ s, c ≠ '>') → pySplitGT s = [s] := by
  induction s using pySplitGT.induct with
  | case1 => intro h; rfl
  | case2 rest ih => intro h; exact absurd rfl (h '>' (by simp))
  | case3 c rest h1 h2 ih => intro h; exact absurd h2 (pySplitGT_ne_nil rest)
  | case4 c rest h1 t ts h2 ih =>
    intro h
    have hr := ih (fun x hx => h x (List.mem_cons_of_mem c hx))
    rw [h2] at hr
    rw [pySplitGT_cons_ne c rest h1, h2]
    injection hr with e1 e2
    rw [e1, e2]

theorem pySplitGT_boundary (a b : List Char) (h : ∀ c ∈ a, c ≠ ' ') :
    pySplitGT (a ++ sepGT ++ b) = a :: pySplitGT b := by
  induction a with
  | nil => simp [sepGT, pySplitGT]
  | cons c t ih =>
    have hc : c ≠ ' ' := h c (by simp)
    have h1 : ∀ r, c = ' ' → (t ++ sepGT ++ b) = '>' :: ' ' :: r → False :=
      fun r hc2 _ => hc hc2
    rw [show (c :: t) ++ sepGT ++ b = c :: (t ++ sepGT ++ b) from rfl,
      pySplitGT_cons_ne c _ h1, ih (fun x hx => h x (List.mem_cons_of_mem c hx))]

theorem strip_ne_nil_of_parts_two (r p q : List Char) (h : pySplitGT r = [p, q]) :
    pyStrip r ≠ [] := by
  intro hnil
  have hall := (pyStrip_eq_nil_iff r).1 hnil
  have hgt : ∀ c ∈ r, c ≠ '>' := by
    intro c hc he
    have := hall c hc
    rw [he] at this
    exact absurd this (by decide)
  rw [pySplitGT_no_gt r hgt] at h
  injection h with e1 e2
  exact absurd e2 (by simp)

theorem splitOnChar_ne_nil (sep : Char) (s : List Char) : splitOnChar sep s ≠ [] := by
  induction s with
  | nil => simp [splitOnChar]
  | cons c rest ih =>
    by_cases h1 : c = sep
    · simp [splitOnChar, h1]
    · rcases hsp : splitOnChar sep rest with _ | ⟨t, ts⟩
      · exact absurd hsp ih
      · simp [splitOnChar, h1, hsp]

theorem splitOnChar_no_sep (sep : Char) (s : List Char) (h : ∀ c ∈ s, c ≠ sep) :
    splitOnChar sep s = [s] := by
  induction s with
  | nil => rfl
  | cons c rest ih =>
    have h1 : ¬ c = sep := h c (by simp)
    have h2 := ih fun x hx => h x (List.mem_cons_of_mem c hx)
    simp [splitOnChar, h1, h2]

theorem mem_of_mem_splitOnChar (sep c : Char) (s p : List Char)
    (hp : p ∈ splitOnChar sep s) (hc : c ∈ p) : c ∈ s := by
  induction s generalizing p with
  | nil =>
    simp [splitOnChar] at hp
    subst hp
    simp at hc
  | cons c1 rest ih =>
    by_cases h1 : c1 = sep
    · simp only [splitOnChar, if_pos h1, List.mem_cons] at hp
      rcases hp with rfl | hp
      · simp at hc
      · exact List.mem_cons_of_mem c1 (ih p hp hc)
    · rcases hsp : splitOnChar sep rest with _ | ⟨t, ts⟩
      · exact absurd hsp (splitOnChar_ne_nil sep rest)
      · simp only [splitOnChar, if_neg h1, hsp, List.mem_cons] at hp
        rcases hp with rfl | hp
        · rcases List.mem_cons.1 hc with rfl | hct
          · simp
          · exact List.mem_cons_of_mem c1 (ih t (by rw [hsp]; simp) hct)
        · exact List.mem_cons_of_mem c1 (ih p (by rw [hsp]; simp [hp]) hc)

theorem mapM_option_length {α β : Type} (f : α → Option β) (l : List α) (l2 : List β)
    (h : l.mapM f = some l2) : l2.length = l.length := by
  induction l generalizing l2 with
  | nil =>
    simp only [List.mapM_nil, pure, Option.some.injEq] at h
    rw [← h]
    rfl
  | cons a t ih =>
    simp only [List.mapM_cons, Option.bind_eq_bind, Option.bind_eq_some,
      Option.some.injEq, pure] at h
    rcases h with ⟨y, hy, ys, hys, hl2⟩
    rw [← hl2]
    simp [ih ys hys]

theorem mapM_option_of_forall {α β : Type} (f : α → Option β) (g : α → β) (l : List α)
    (h : ∀ a ∈ l, f a = some (g a)) : l.mapM f = some (l.map g) := by
  induction l with
  | nil => rfl
  | cons a t ih =>
    simp only [List.mapM_cons, h a (by simp), ih fun x hx => h x (List.mem_cons_of_mem a hx)]
    rfl

theorem digit_not_space (c : Char) (h : c.isDigit = true) : pyIsSpace c = false := by
  cases hs : pyIsSpace c
  · rfl
  · exfalso
    simp only [pyIsSpace, Bool.or_eq_true, decide_eq_true_eq] at hs
    rcases hs with ((((rfl | rfl) | rfl) | rfl) | rfl) | rfl <;> exact absurd h (by decide)

theorem pyDigitsRest_cons_ne (c : Char) (rest : List Char)
    (h : ∀ d r, c = '_' → rest = d :: r → False) :
    pyDigitsRest (c :: rest) = (c.isDigit && pyDigitsRest rest) := by
  rw [pyDigitsRest.eq_def]
  split
  · simp_all
  · rename_i d r heq
    injection heq with h1 h2
    exact (h d r h1 h2).elim
  · rename_i a b hne heq
    injection heq with h1 h2
    subst h1; subst h2
    rfl

theorem pyDigitsRest_all_digits (s : List Char) :
    (∀ c ∈ s, c.isDigit = true) → pyDigitsRest s = true := by
  induction s using pyDigitsRest.induct with
  | case1 => intro h; rfl
  | case2 c rest ih =>
    intro h
    exact absurd (h '_' (by simp)) (by decide)
  | case3 c rest h1 ih =>
    intro h
    have hne : ∀ d r, c = '_' → rest = d :: r → False := by
      intro d r hc hr
      rw [hc] at h
      exact absurd (h '_' (by simp)) (by decide)
    rw [pyDigitsRest_cons_ne c rest hne, h c (by simp), Bool.true_and]
    exact ih fun x hx => h x (List.mem_cons_of_mem c hx)

theorem pyInt_digits (p : List Char) (hne : p ≠ []) (hd : ∀ c ∈ p, c.isDigit = true) :
    pyInt p = some ((digitsVal p : Int)) := by
  have hstrip : pyStrip p = p :=
    pyStrip_no_space p fun c hc => digit_not_space c (hd c hc)
  have hb : pyIntBody p = true := by
    rcases p with _ | ⟨c, rest⟩
    · exact absurd rfl hne
    · simp only [pyIntBody, hd c (by simp), Bool.true_and]
      exact pyDigitsRest_all_digits rest fun x hx => hd x (List.mem_cons_of_mem c hx)
  rw [pyInt.eq_def, hstrip]
  split
  · rename_i rest
    have hplus : ('+' : Char).isDigit = false := by decide
    simp only [pyIntBody, hplus, Bool.false_and] at hb
    exact absurd hb (by decide)
  · rename_i rest
    have hminus : ('-' : Char).isDigit = false := by decide
    simp only [pyIntBody, hminus, Bool.false_and] at hb
    exact absurd hb (by decide)
  · rw [if_pos hb]


theorem privateRangeTest_eq_specPrivate (l : List Int)
    (hr : (l.all fun o => decide (0 ≤ o ∧ o ≤ 255)) = true) :
    privateRangeTest l = specPrivate l := by
  unfold privateRangeTest
  rw [if_pos hr]
  rcases l with _ | ⟨o0, _ | ⟨o1, rest⟩⟩
  · rfl
  · rfl
  · show (if o0 = 10 then true
      else if o0 = 172 ∧ 16 ≤ o1 ∧ o1 ≤ 31 then true
      else if o0 = 192 ∧ o1 = 168 then true
      else false) = specPrivate (o0 :: o1 :: rest)
    by_cases h10 : o0 = 10
    · rw [if_pos h10]; simp [specPrivate, h10]
    · rw [if_neg h10]
      by_cases h172 : o0 = 172 ∧ 16 ≤ o1 ∧ o1 ≤ 31
      · rw [if_pos h172]; simp [specPrivate, h172]
      · rw [if_neg h172]
        by_cases h192 : o0 = 192 ∧ o1 = 168
        · rw [if_pos h192]; simp [specPrivate, h192]
        · rw [if_neg h192]; simp [specPrivate, h10, h172, h192]

theorem is_private_ip_eq (ip : List Char) :
    is_private_ip ip = (pyOctets ip).elim false specPrivate := by
  by_cases hs : pyStrip ip = []
  · have hdot : ∀ c ∈ ip, c ≠ '.' := by
      intro c hc he
      have := (pyStrip_eq_nil_iff ip).1 hs c hc
      rw [he] at this
      exact absurd this (by decide)
    have hIntNone : pyInt ip = none := by rw [pyInt.eq_def, hs]; rfl
    have hOct : pyOctets ip = none := by
      unfold pyOctets
      rw [splitOnChar_no_sep '.' ip hdot]
      rw [show List.mapM pyInt [ip] = none by rw [List.mapM_cons, hIntNone]; rfl]
    unfold is_private_ip
    rw [if_pos hs, hOct]
    rfl
  · unfold is_private_ip pyOctets
    rw [if_neg hs]
    rcases hm : (splitOnChar '.' ip).mapM pyInt with _ | l
    · by_cases hl : (splitOnChar '.' ip).length ≠ 4
      · rw [if_pos hl]; rfl
      · rw [if_neg hl]; rfl
    · have hlen := mapM_option_length pyInt (splitOnChar '.' ip) l hm
      show (if (splitOnChar '.' ip).length ≠ 4 then false else privateRangeTest l) =
        (quadGuard l).elim false specPrivate
      by_cases hl : (splitOnChar '.' ip).length ≠ 4
      · rw [if_pos hl]
        have hbeq : (l.length == 4) = false := beq_eq_false_iff_ne.2 (by rw [hlen]; exact hl)
        unfold quadGuard
        rw [hbeq, Bool.false_and]
        rfl
      · rw [if_neg hl]
        rw [not_ne_iff] at hl
        have hl4 : l.length = 4 := by rw [hlen, hl]
        have hbeqT : (l.length == 4) = true := beq_iff_eq.2 hl4
        unfold quadGuard
        cases hr : l.all (fun o => decide (0 ≤ o ∧ o ≤ 255)) with
        | false =>
          rw [Bool.and_false]
          unfold privateRangeTest
          rw [hr]
          rfl
        | true =>
          rw [Bool.and_true, hbeqT]
          show privateRangeTest l = specPrivate l
          exact privateRangeTest_eq_specPrivate l hr

theorem strictQuad_pyOctets (s : List Char) (l : List Int) (h : strictQuad s = some l) :
    pyOctets s = some l ∧ pyStrip s ≠ [] := by
  unfold strictQuad at h
  by_cases hg : ((splitOnChar '.' s).length == 4 &&
      (splitOnChar '.' s).all (fun p => !p.isEmpty && p.all Char.isDigit && decide (digitsVal p ≤ 255))) = true
  · rw [if_pos hg] at h
    injection h with hl
    rw [Bool.and_eq_true] at hg
    have hlen4 : (splitOnChar '.' s).length = 4 := beq_iff_eq.1 hg.1
    have hall := List.all_eq_true.1 hg.2
    have hpart : ∀ p ∈ splitOnChar '.' s,
        p ≠ [] ∧ (∀ c ∈ p, c.isDigit = true) ∧ digitsVal p ≤ 255 := by
      intro p hp
      have := hall p hp
      rw [Bool.and_eq_true, Bool.and_eq_true] at this
      refine ⟨?_, fun c hc => List.all_eq_true.1 this.1.2 c hc, of_decide_eq_true this.2⟩
      intro hnil
      rw [hnil] at this
      exact absurd this.1.1 (by decide)
    have hmap : List.mapM pyInt (splitOnChar '.' s) =
        some ((splitOnChar '.' s).map fun p => (digitsVal p : Int)) := by
      refine mapM_option_of_forall pyInt _ _ fun p hp => ?_
      obtain ⟨h1, h2, h3⟩ := hpart p hp
      exact pyInt_digits p h1 h2
    constructor
    · unfold pyOctets
      rw [hmap]
      show quadGuard ((splitOnChar '.' s).map fun p => (digitsVal p : Int)) = some l
      unfold quadGuard
      have hlenm : (((splitOnChar '.' s).map fun p => (digitsVal p : Int)).length == 4) = true := by
        rw [List.length_map]
        exact beq_iff_eq.2 hlen4
      have hrange : (((splitOnChar '.' s).map fun p => (digitsVal p : Int)).all
          fun o => decide (0 ≤ o ∧ o ≤ 255)) = true := by
        rw [List.all_eq_true]
        intro o ho
        rcases List.mem_map.1 ho with ⟨p, hp, rfl⟩
        refine decide_eq_true ⟨Int.ofNat_nonneg _, ?_⟩
        exact_mod_cast (hpart p hp).2.2
      rw [hlenm, hrange, Bool.and_self, if_pos rfl, hl]
    · intro hnil
      have hne : splitOnChar '.' s ≠ [] := splitOnChar_ne_nil '.' s
      obtain ⟨p, hp⟩ := List.exists_mem_of_ne_nil _ hne
      obtain ⟨h1, h2, h3⟩ := hpart p hp
      rcases p with _ | ⟨c, rest⟩
      · exact absurd rfl h1
      · have hcs : c ∈ s := mem_of_mem_splitOnChar '.' c s (c :: rest) hp (by simp)
        have := (pyStrip_eq_nil_iff s).1 hnil c hcs
        rw [digit_not_space c (h2 c (by simp))] at this
        exact absurd this (by decide)
  · rw [if_neg hg] at h
    exact absurd h (by simp)


theorem flatten_filter_ne_nil {α : Type} (l : List (List α)) :
    (l.filter fun x => !x.isEmpty).flatten = l.flatten := by
  induction l with
  | nil => rfl
  | cons x xs ih =>
    rw [List.filter_cons]
    cases hx : x.isEmpty with
    | true =>
      rw [List.isEmpty_iff] at hx
      simp [hx, ih]
    | false =>
      simp only [hx, Bool.not_false, if_pos rfl, List.flatten_cons, ih, List.flatten]

theorem flatten_ne_nil_of_mem_ne_nil {α : Type} (l : List (List α)) (hne : l ≠ [])
    (hmem : ∀ x ∈ l, x ≠ []) : l.flatten ≠ [] := by
  rcases l with _ | ⟨x, xs⟩
  · exact absurd rfl hne
  · rw [List.flatten_cons]
    intro hc
    exact absurd (List.append_eq_nil.1 hc).1 (hmem x (by simp))

theorem filterMergeAux_ok (target : String) (tables : List PTable)
    (h : ∀ t ∈ tables, "Severity" ∈ t.header) :
    filterMergeAux target tables =
      .ok ((tables.map (filterTableBySeverity target)).filter fun f => !f.isEmpty) := by
  induction tables with
  | nil => rfl
  | cons t ts ih =>
    unfold filterMergeAux
    rw [if_pos (h t (by simp))]
    rw [ih fun x hx => h x (List.mem_cons_of_mem t hx)]
    show Except.bind (Except.ok _) _ = _
    rw [List.map_cons, List.filter_cons]
    cases hf : (filterTableBySeverity target t).isEmpty with
    | true => simp [Except.bind, hf]; rfl
    | false => simp [Except.bind, hf]; rfl


theorem filterMap_guard_all {α β : Type} (p : α → Prop) [DecidablePred p] (f : α → β)
    (l : List α) (h : ∀ a ∈ l, p a) :
    (l.filterMap fun a => if p a then some (f a) else none) = l.map f := by
  induction l with
  | nil => rfl
  | cons a t ih =>
    rw [List.filterMap_cons_some (by rw [if_pos (h a (by simp))]),
      List.map_cons, ih fun x hx => h x (List.mem_cons_of_mem a hx)]


theorem writeRow_step (maxRows : Nat) (st : MergeState) (r : Row)
    (hinv : MergeInv maxRows st) (hh : st.header.isSome = true) :
    MergeInv maxRows (writeRow maxRows st r) ∧
    allData (writeRow maxRows st r) = allData st ++ [r] ∧
    (writeRow maxRows st r).header = st.header := by
  obtain ⟨h, hhd⟩ := Option.isSome_iff_exists.1 hh
  cases hcur : st.cur with
  | none =>
    unfold MergeInv at hinv
    rw [hcur] at hinv
    have hchunks : st.chunks = [] := hinv
    simp only [writeRow, hcur]
    refine ⟨?_, ?_, ?_⟩
    · unfold MergeInv
      refine ⟨h, [r], hhd, ?_, ?_, ?_, ?_, ?_⟩
      · simp [hhd]
      · rfl
      · exact le_refl 1
      · exact fun hm => hm
      · rw [hchunks]
        simp
    · unfold allData
      rw [hcur, hchunks]
      simp
    · trivial
  | some c =>
    unfold MergeInv at hinv
    rw [hcur] at hinv
    obtain ⟨h2, d, hhd2, hc, hcount, hd1, hdmax, hch⟩ := hinv
    have hcons : h2 = h := by
      rw [hhd2] at hhd
      injection hhd
    by_cases hge : maxRows ≤ st.count
    · simp only [writeRow, hcur, if_pos hge]
      refine ⟨?_, ?_, ?_⟩
      · unfold MergeInv
        refine ⟨h, [r], hhd, ?_, ?_, ?_, ?_, ?_⟩
        · simp [hhd]
        · rfl
        · exact le_refl 1
        · exact fun hm => hm
        · intro ch hch2
          rcases List.mem_append.1 hch2 with hold | hnew
          · obtain ⟨e, he1, he2, he3⟩ := hch ch hold
            exact ⟨e, by rw [he1, hcons], he2, he3⟩
          · have hceq : ch = c := by simpa using hnew
            subst hceq
            refine ⟨d, by rw [hc, hcons], hd1, fun hm => ?_⟩
            have hx := hdmax hm
            omega
      · unfold allData
        rw [hcur, hc]
        simp [List.append_assoc]
      · trivial
    · simp only [writeRow, hcur, if_neg hge]
      refine ⟨?_, ?_, ?_⟩
      · unfold MergeInv
        refine ⟨h2, d ++ [r], hhd2, ?_, ?_, ?_, ?_, ?_⟩
        · rw [hc]
          simp
        · simp [hcount]
        · simp
        · intro hm
          rw [List.length_append, List.length_singleton]
          have hx := hdmax hm
          omega
        · exact hch
      · unfold allData
        rw [hcur, hc]
        simp
      · trivial


theorem foldRows_step (maxRows : Nat) (rs : List Row) (st : MergeState)
    (hinv : MergeInv maxRows st) (hh : st.header.isSome = true) :
    MergeInv maxRows (rs.foldl (writeRow maxRows) st) ∧
    allData (rs.foldl (writeRow maxRows) st) = allData st ++ rs ∧
    (rs.foldl (writeRow maxRows) st).header = st.header := by
  induction rs generalizing st with
  | nil => exact ⟨hinv, by simp, rfl⟩
  | cons r rest ih =>
    obtain ⟨h1, h2, h3⟩ := writeRow_step maxRows st r hinv hh
    obtain ⟨g1, g2, g3⟩ := ih (writeRow maxRows st r) h1 (by rw [h3]; exact hh)
    refine ⟨g1, ?_, by rw [List.foldl_cons, g3, h3]⟩
    rw [List.foldl_cons, g2, h2, List.append_assoc]
    rfl

theorem processFile_step (maxRows : Nat) (st : MergeState) (f : MFile)
    (hinv : MergeInv maxRows st) :
    MergeInv maxRows (processFile maxRows st f) ∧
    allData (processFile maxRows st f) = allData st ++ f.rows.tail ∧
    (processFile maxRows st f).header = st.header.or f.rows.head? := by
  cases hrows : f.rows with
  | nil =>
    simp only [processFile, hrows]
    exact ⟨hinv, by simp, (Option.or_none).symm⟩
  | cons fh dataRows =>
    simp only [processFile, hrows]
    by_cases hns : st.header.isNone = true
    · rw [if_pos hns]
      have hinv1 : MergeInv maxRows ⟨st.chunks, st.cur, st.count, some fh⟩ := by
        unfold MergeInv at hinv ⊢
        cases hcur : st.cur with
        | none =>
          rw [hcur] at hinv
          exact hinv
        | some c =>
          rw [hcur] at hinv
          obtain ⟨h, d, hhd, _⟩ := hinv
          rw [hhd] at hns
          exact absurd hns (by simp)
      have hh1 : (⟨st.chunks, st.cur, st.count, some fh⟩ : MergeState).header.isSome = true := rfl
      obtain ⟨g1, g2, g3⟩ := foldRows_step maxRows dataRows _ hinv1 hh1
      refine ⟨g1, ?_, ?_⟩
      · rw [g2]
        rfl
      · rw [g3, Option.isNone_iff_eq_none.1 hns]
        rfl
    · rw [if_neg hns]
      have hh1 : st.header.isSome = true := by
        cases hsome : st.header
        · rw [hsome] at hns
          exact absurd rfl hns
        · rfl
      obtain ⟨g1, g2, g3⟩ := foldRows_step maxRows dataRows st hinv hh1
      refine ⟨g1, by rw [g2]; rfl, ?_⟩
      rw [g3]
      obtain ⟨h, hsome⟩ := Option.isSome_iff_exists.1 hh1
      rw [hsome]
      rfl

theorem foldFiles_step (maxRows : Nat) (fs : List MFile) (st : MergeState)
    (hinv : MergeInv maxRows st) :
    MergeInv maxRows (fs.foldl (processFile maxRows) st) ∧
    allData (fs.foldl (processFile maxRows) st) =
      allData st ++ (fs.map fun f => f.rows.tail).flatten ∧
    (fs.foldl (processFile maxRows) st).header = st.header.or (firstHeader fs) := by
  induction fs generalizing st with
  | nil => exact ⟨hinv, by simp, by rw [List.foldl_nil]; unfold firstHeader; rw [List.findSome?_nil, Option.or_none]⟩
  | cons f rest ih =>
    obtain ⟨h1, h2, h3⟩ := processFile_step maxRows st f hinv
    obtain ⟨g1, g2, g3⟩ := ih _ h1
    refine ⟨g1, ?_, ?_⟩
    · rw [List.foldl_cons, g2, h2, List.map_cons, List.flatten_cons, List.append_assoc]
    · rw [List.foldl_cons, g3, h3]
      have hfh : firstHeader (f :: rest) = (f.rows.head?).or (firstHeader rest) := by
        unfold firstHeader
        rw [List.findSome?_cons]
        cases f.rows.head? <;> rfl
      rw [hfh]
      cases st.header <;> cases f.rows.head? <;> rfl

theorem mergeOut_eq (files : List MFile) (maxRows : Nat) :
    mergeCsvFiles files maxRows =
      (match ((sortByName files).foldl (processFile maxRows) initMergeState).cur with
       | none => ((sortByName files).foldl (processFile maxRows) initMergeState).chunks
       | some c => ((sortByName files).foldl (processFile maxRows) initMergeState).chunks ++ [c]) :=
  rfl

theorem mergeCsvFiles_master (files : List MFile) (maxRows : Nat) :
    ((mergeCsvFiles files maxRows).map List.tail).flatten =
      ((sortByName files).map fun f => f.rows.tail).flatten ∧
    (∀ c ∈ mergeCsvFiles files maxRows, ∃ h d, firstHeader (sortByName files) = some h ∧
      c = h :: d ∧ 1 ≤ d.length ∧ (1 ≤ maxRows → d.length ≤ maxRows)) ∧
    (∀ c ∈ (mergeCsvFiles files maxRows).dropLast,
      ∃ h d, c = h :: d ∧ (1 ≤ maxRows → d.length = maxRows)) ∧
    (((sortByName files).map fun f => f.rows.tail).flatten = [] →
      mergeCsvFiles files maxRows = []) := by
  obtain ⟨hinvF, hdataF, hheadF⟩ := foldFiles_step maxRows (sortByName files) initMergeState rfl
  rw [mergeOut_eq files maxRows]
  generalize hF : (sortByName files).foldl (processFile maxRows) initMergeState = F
    at hinvF hdataF hheadF ⊢
  obtain ⟨chunks, cur, count, hdr⟩ := F
  have hhead2 : hdr = firstHeader (sortByName files) := by
    rw [show (⟨chunks, cur, count, hdr⟩ : MergeState).header = hdr from rfl] at hheadF
    rw [hheadF]
    rfl
  cases cur with
  | none =>
    have hchunks : chunks = [] := hinvF
    subst hchunks
    have hdata2 : ((sortByName files).map fun f => f.rows.tail).flatten = [] := by
      have h1 : allData ⟨[], none, count, hdr⟩ = [] := rfl
      have h2 : allData initMergeState = [] := rfl
      rw [h1, h2] at hdataF
      simpa using hdataF.symm
    refine ⟨?_, ?_, ?_, fun _ => rfl⟩
    · rw [hdata2]
      rfl
    · intro c hc
      exact absurd hc (by simp)
    · intro c hc
      exact absurd hc (by simp)
  | some c =>
    obtain ⟨h, d, hhd, hc, hcount, hd1, hdmax, hch⟩ := hinvF
    have hhd2 : hdr = some h := hhd
    have hdata2 : (chunks.map List.tail).flatten ++ d =
        ((sortByName files).map fun f => f.rows.tail).flatten := by
      have h1 : allData ⟨chunks, some c, count, hdr⟩ = (chunks.map List.tail).flatten ++ c.tail := rfl
      have h2 : allData initMergeState = [] := rfl
      rw [h1, h2, List.nil_append, hc] at hdataF
      simpa using hdataF
    refine ⟨?_, ?_, ?_, ?_⟩
    · rw [List.map_append, List.flatten_append]
      show (chunks.map List.tail).flatten ++ ([c.tail].flatten) = _
      rw [hc]
      show (chunks.map List.tail).flatten ++ (d ++ []) = _
      rw [List.append_nil, hdata2]
    · intro ch hch2
      rcases List.mem_append.1 hch2 with hold | hnew
      · obtain ⟨e, he1, he2, he3⟩ := hch ch hold
        refine ⟨h, e, ?_, he1, he2, fun hm => le_of_eq (he3 hm)⟩
        rw [← hhead2]
        exact hhd2
      · have hceq : ch = c := by simpa using hnew
        subst hceq
        refine ⟨h, d, ?_, hc, hd1, hdmax⟩
        rw [← hhead2]
        exact hhd2
    · intro ch hch2
      rw [List.dropLast_concat] at hch2
      obtain ⟨e, he1, he2, he3⟩ := hch ch hch2
      exact ⟨h, e, he1, he3⟩
    · intro h0
      exfalso
      rw [← hdata2] at h0
      rcases List.append_eq_nil.1 h0 with ⟨_, hd0⟩
      rw [hd0] at hd1
      exact absurd hd1 (by decide)

/-!  Claims. -/

/-- C4: the keyword filter is claimed (and tested, see
test_filter_with_no_matching_rows) to produce no output file for an input
table with zero matching rows.  The code instead always writes the output
file; on a one-row table whose Message does not contain the keyword the
written file content is the bare header and the returned count is 0. -/
theorem filter_keyword_writes_file_on_zero_matches :
    filter_csv_by_keyword "RT_IDP_ATTACK"
      [["Timestamp", "Hostname", "AppName", "SeverityLevel", "Severity", "LogType", "Message"],
       ["2025-12-16T00:00:00Z", "srx-fw01", "RT_FLOW", "6", "INFO", "NORMAL",
        "RT_FLOW_SESSION_CREATE: session created"]] =
      .ok ([["Timestamp", "Hostname", "AppName", "SeverityLevel", "Severity", "LogType", "Message"]], 0) := by
  rfl

/-- C5 counterexample: with requested positions containing 3 and a file whose
row has width 2, the projection does not fail; it silently emits the row with
the out-of-range position dropped. -/
theorem reduce_columns_out_of_range_no_error :
    reduce_csv_columns [0, 3] [["a", "b"]] = [["a"]] := by
  rfl

theorem reduceRow_eq_filterMap (keepColumns : List Nat) (row : Row) :
    reduceRow keepColumns row = keepColumns.filterMap row.get? := by
  unfold reduceRow
  induction keepColumns with
  | nil => rfl
  | cons i ks ih =>
    rw [List.filter_cons]
    by_cases hi : i < row.length
    · have hg : row.get? i = some (row.getD i "") := by
        simp [List.get?_eq_getElem?, List.getElem?_eq_getElem hi, List.getD_eq_getElem row "" hi]
      rw [List.filterMap_cons_some hg, if_pos (by simp [hi]), List.map_cons, ih]
    · have hg : row.get? i = none := List.get?_eq_none.2 (by omega)
      rw [List.filterMap_cons_none hg, if_neg (by simp [hi]), ih]

theorem filterMap_get?_range {α : Type} (l : List α) (k : Nat) :
    (List.range k).filterMap l.get? = l.take k := by
  induction k with
  | zero => rfl
  | succ n ih =>
    rw [List.range_succ, List.filterMap_append, ih, List.take_succ]
    cases h : l[n]? <;> simp [List.get?_eq_getElem?, h]

theorem reduceRow_range (k : Nat) (row : Row) :
    reduceRow (List.range k) row = row.take k := by
  rw [reduceRow_eq_filterMap, filterMap_get?_range]

/-- C5 amended: the projection stage never fails on out-of-range positions;
every row, header included, is emitted with the requested positions that are
in range for that row (equivalently, the optional lookups that succeed), and
the row count is preserved. -/
theorem reduce_columns_drops_out_of_range (keepColumns : List Nat) (file : List Row) :
    reduce_csv_columns keepColumns file =
      file.map (fun row => keepColumns.filterMap row.get?) ∧
    (reduce_csv_columns keepColumns file).length = file.length := by
  constructor
  · unfold reduce_csv_columns
    exact List.map_congr_left fun row _ => reduceRow_eq_filterMap keepColumns row
  · simp [reduce_csv_columns]

/-- C6 counterexample: with the default column list [0, 1, 2, 6] and a
seven-column row, projecting twice drops position 6 (out of range for the
projected width 4), so the result differs from projecting once. -/
theorem reduce_columns_not_idempotent :
    reduce_csv_columns [0, 1, 2, 6]
        (reduce_csv_columns [0, 1, 2, 6] [["c0", "c1", "c2", "c3", "c4", "c5", "c6"]]) ≠
      reduce_csv_columns [0, 1, 2, 6] [["c0", "c1", "c2", "c3", "c4", "c5", "c6"]] := by
  decide

/-- C6 amended: projection is idempotent when the column list is an initial
segment of positions 0..k-1 (it then equals taking the first k cells of each
row); for a general list such as the default [0, 1, 2, 6] a second projection
additionally drops the positions that exceed the projected width. -/
theorem reduce_columns_range_idempotent (k : Nat) (file : List Row) :
    reduce_csv_columns (List.range k) (reduce_csv_columns (List.range k) file) =
      reduce_csv_columns (List.range k) file := by
  unfold reduce_csv_columns
  rw [List.map_map]
  exact List.map_congr_left fun row _ => by
    simp [Function.comp, reduceRow_range, List.take_take]

/-- C7 counterexample: a = "x >" and b = "y" are nonempty and neither
contains the substring " > ", yet split_routing on "x > > y" returns
("x", "> y"), not (a, b): the concatenation creates an earlier delimiter
occurrence straddling the boundary. -/
theorem split_routing_round_trip_fails :
    containsSeq sepGT "x >".toList = false ∧ containsSeq sepGT "y".toList = false ∧
    "x >".toList ≠ [] ∧ "y".toList ≠ [] ∧
    split_routing ("x >".toList ++ sepGT ++ "y".toList) ≠ ("x >".toList, "y".toList) := by
  decide

/-- C7 amended: the round trip split_routing (a ++ " > " ++ b) = (a, b) holds
for all nonempty a and b that contain no whitespace characters (in
particular, for address-like strings): then the only occurrence of the
delimiter is the inserted one and stripping is the identity. -/
theorem split_routing_round_trip (a b : List Char) (ha : a ≠ []) (hb : b ≠ [])
    (hsa : ∀ c ∈ a, pyIsSpace c = false) (hsb : ∀ c ∈ b, pyIsSpace c = false) :
    split_routing (a ++ sepGT ++ b) = (a, b) := by
  have hnsA : ∀ c ∈ a, c ≠ ' ' := by
    intro c hc he
    have := hsa c hc
    rw [he] at this
    exact absurd this (by decide)
  have hnsB : ∀ c ∈ b, c ≠ ' ' := by
    intro c hc he
    have := hsb c hc
    rw [he] at this
    exact absurd this (by decide)
  have hparts : pySplitGT (a ++ sepGT ++ b) = [a, b] := by
    rw [pySplitGT_boundary a b hnsA, pySplitGT_no_space b hnsB]
  have hstrip : pyStrip (a ++ sepGT ++ b) ≠ [] := by
    intro hnil
    have := (pyStrip_eq_nil_iff _).1 hnil '>' (by simp [sepGT])
    exact absurd this (by decide)
  unfold split_routing
  rw [if_neg hstrip, hparts]
  show (pyStrip a, pyStrip b) = (a, b)
  rw [pyStrip_no_space a hsa, pyStrip_no_space b hsb]

/-- C9 counterexample: on the routing string " > x" (one delimiter
occurrence, whitespace-only left side) split_routing returns ("", "x"):
exactly one of the two outputs is populated, contradicting the claim that
this never happens. -/
theorem split_routing_partial_output :
    (split_routing " > x".toList).1 = [] ∧ (split_routing " > x".toList).2 ≠ [] := by
  decide

/-- C9 amended: split_routing is total; it returns ("", "") whenever the
greedy left-to-right split on " > " does not give exactly two parts (in
particular for the empty string, any whitespace-only string, and any string
without the delimiter); when the split gives exactly two parts the outputs
are those parts with surrounding whitespace stripped, so exactly one output
can be empty when the corresponding side is whitespace-only. -/
theorem split_routing_cases (r : List Char) :
    ((pySplitGT r).length ≠ 2 → split_routing r = ([], [])) ∧
    ∀ p q, pySplitGT r = [p, q] → split_routing r = (pyStrip p, pyStrip q) := by
  constructor
  · intro hlen
    unfold split_routing
    by_cases hs : pyStrip r = []
    · rw [if_pos hs]
    · rw [if_neg hs]
      rcases hps : pySplitGT r with _ | ⟨p, _ | ⟨q, _ | ⟨x, xs⟩⟩⟩
      · rfl
      · rfl
      · rw [hps] at hlen; simp at hlen
      · rfl
  · intro p q hpq
    unfold split_routing
    rw [if_neg (strip_ne_nil_of_parts_two r p q hpq), hpq]

/-- Witness for the amended C7 round trip at two concrete addresses. -/
theorem split_routing_round_trip_witness :
    split_routing ("192.168.1.1".toList ++ sepGT ++ "10.0.0.5".toList) =
      ("192.168.1.1".toList, "10.0.0.5".toList) :=
  split_routing_round_trip "192.168.1.1".toList "10.0.0.5".toList
    (by decide) (by decide) (by decide) (by decide)

/-- Witness for the amended C9 at a concrete two-part routing string. -/
theorem split_routing_cases_witness :
    split_routing "a > b".toList = (pyStrip "a".toList, pyStrip "b".toList) :=
  (split_routing_cases "a > b".toList).2 "a".toList "b".toList (by decide)

/-- C2 (amended): classify_ip_address returns "" for empty and for
whitespace-only input; for every other string it returns "private" exactly
when the string splits on dots into 4 parts each accepted by Python int()
with value in 0..255 whose first octets lie in the private ranges, and
"global" otherwise (in particular for every other malformed string); every
strict dotted quad in the claim's sense parses this way. -/
theorem classify_ip_characterization (s : List Char) :
    (pyStrip s = [] → classify_ip_address s = "") ∧
    (pyStrip s ≠ [] →
      classify_ip_address s =
        (pyOctets s).elim "global" fun l => if specPrivate l then "private" else "global") ∧
    (∀ l, strictQuad s = some l → pyOctets s = some l ∧ pyStrip s ≠ []) := by
  refine ⟨?_, ?_, ?_⟩
  · intro hs
    unfold classify_ip_address
    rw [if_pos hs]
  · intro hs
    unfold classify_ip_address
    rw [if_neg hs, is_private_ip_eq]
    cases hoc : pyOctets s with
    | none => rfl
    | some l =>
      show (if specPrivate l = true then "private" else "global") =
        (if specPrivate l then "private" else "global")
      rfl
  · exact fun l h => strictQuad_pyOctets s l h

/-- C2 counterexample: the whitespace-only string " " is non-empty and
malformed, yet classify_ip_address returns "" rather than "global"; and
"1_0.0.0.1", whose first octet is not a plain decimal numeral, is accepted
by Python int() as 10, so the code returns "private" rather than
"global". -/
theorem classify_ip_malformed_not_global :
    classify_ip_address " ".toList = "" ∧ " ".toList ≠ [] ∧
    classify_ip_address "1_0.0.0.1".toList = "private" := by
  decide

/-- Witness for the amended C2 at a concrete global address. -/
theorem classify_ip_characterization_witness :
    classify_ip_address "8.8.8.8".toList = "global" := by
  have h := (classify_ip_characterization "8.8.8.8".toList).2.1 (by decide)
  rw [h]
  decide

/-- C3: filter_and_merge_critical is the severity filter-merge with the
hardcoded target "CRITICAL"; for every target and every list of tables each
containing a Severity column, the stage does not raise; it signals none (no
file written) exactly when no row of any table matches the target by exact
case-sensitive string equality; otherwise the single output file content is
the concatenation of the per-table matching rows in input-file order then
within-file row order, and is non-empty. -/
theorem filter_merge_critical_spec (target : String) (tables : List PTable)
    (h : ∀ t ∈ tables, "Severity" ∈ t.header) :
    filter_and_merge_critical tables = filterMergeBySeverity "CRITICAL" tables ∧
    ∃ r, filterMergeBySeverity target tables = .ok r ∧
      (r = none ↔ ∀ t ∈ tables, filterTableBySeverity target t = []) ∧
      ∀ rows, r = some rows →
        rows = (tables.map (filterTableBySeverity target)).flatten ∧ rows ≠ [] := by
  refine ⟨rfl, ?_⟩
  unfold filterMergeBySeverity
  rw [filterMergeAux_ok target tables h]
  by_cases he : tables.isEmpty = true
  · rw [if_pos he]
    refine ⟨none, rfl, ?_, by simp⟩
    rw [List.isEmpty_iff] at he
    subst he
    simp
  · rw [if_neg he]
    show ∃ r, (if ((tables.map (filterTableBySeverity target)).filter fun f => !f.isEmpty).isEmpty = true
        then Except.ok none
        else Except.ok (some ((tables.map (filterTableBySeverity target)).filter fun f => !f.isEmpty).flatten)) = .ok r ∧ _
    cases hd : ((tables.map (filterTableBySeverity target)).filter fun f => !f.isEmpty).isEmpty with
    | true =>
      rw [if_pos rfl]
      refine ⟨none, rfl, ?_, by simp⟩
      constructor
      · intro _ t ht
        rw [List.isEmpty_iff, List.filter_eq_nil_iff] at hd
        have hnf := hd (filterTableBySeverity target t) (List.mem_map_of_mem _ ht)
        have hemp : (filterTableBySeverity target t).isEmpty = true := by
          cases hx : (filterTableBySeverity target t).isEmpty
          · rw [hx] at hnf; exact absurd rfl hnf
          · rfl
        exact List.isEmpty_iff.1 hemp
      · intro _; rfl
    | false =>
      rw [if_neg (by simp [hd])]
      refine ⟨some ((tables.map (filterTableBySeverity target)).filter fun f => !f.isEmpty).flatten,
        rfl, ?_, ?_⟩
      · constructor
        · intro hc; exact absurd hc (by simp)
        · intro hall
          exfalso
          have hfil : (tables.map (filterTableBySeverity target)).filter (fun f => !f.isEmpty) = [] := by
            rw [List.filter_eq_nil_iff]
            intro f hf
            rcases List.mem_map.1 hf with ⟨t, ht, rfl⟩
            rw [hall t ht]
            simp
          rw [hfil] at hd
          exact absurd hd (by decide)
      · intro rows hr
        injection hr with hr
        constructor
        · rw [← hr, flatten_filter_ne_nil]
        · rw [← hr]
          refine flatten_ne_nil_of_mem_ne_nil _ ?_ ?_
          · intro hc; rw [hc] at hd; exact absurd hd (by decide)
          · intro x hx
            have := List.of_mem_filter hx
            intro hxe
            rw [hxe] at this
            exact absurd this (by decide)

/-- Witness for C3 on two concrete tables with three CRITICAL rows. -/
theorem filter_merge_critical_spec_witness :
    ∃ r, filterMergeBySeverity "CRITICAL"
        [⟨["AppName", "Severity", "Message"], [["a", "CRITICAL", "m1"], ["b", "INFO", "m2"]]⟩,
         ⟨["AppName", "Severity", "Message"], [["c", "CRITICAL", "m3"]]⟩] = .ok r ∧
      (r = none ↔ ∀ t ∈ [(⟨["AppName", "Severity", "Message"],
            [["a", "CRITICAL", "m1"], ["b", "INFO", "m2"]]⟩ : PTable),
         ⟨["AppName", "Severity", "Message"], [["c", "CRITICAL", "m3"]]⟩],
          filterTableBySeverity "CRITICAL" t = []) ∧
      ∀ rows, r = some rows →
        rows = ([(⟨["AppName", "Severity", "Message"],
            [["a", "CRITICAL", "m1"], ["b", "INFO", "m2"]]⟩ : PTable),
         ⟨["AppName", "Severity", "Message"], [["c", "CRITICAL", "m3"]]⟩].map
           (filterTableBySeverity "CRITICAL")).flatten ∧ rows ≠ [] :=
  (filter_merge_critical_spec "CRITICAL"
    [⟨["AppName", "Severity", "Message"], [["a", "CRITICAL", "m1"], ["b", "INFO", "m2"]]⟩,
     ⟨["AppName", "Severity", "Message"], [["c", "CRITICAL", "m3"]]⟩] (by decide)).2

/-- C8 (amended): the pandas extraction stages (protocol, severity level,
severity) preserve row count unconditionally for every table with a Message
column; the row-by-row stages (routing extraction, address splitting,
address classification) preserve row count and order for every file whose
data rows all have at least the stage's required width (4, 5 and 7
respectively) and whose header is at least that wide, each output row being
the transform of the input row in position; data rows narrower than the
required width are silently dropped by those stages; a row whose Message
does not match the routing pattern still appears, with the derived routing
field set to the empty string. -/
theorem row_transform_stages (header : Row) (rows : List Row) :
    (4 ≤ header.length → (∀ r ∈ rows, 4 ≤ r.length) →
      ∃ h2, extract_routing_from_csv (header :: rows) = .ok (h2 :: rows.map routingRow) ∧
        (rows.map routingRow).length = rows.length) ∧
    (5 ≤ header.length → (∀ r ∈ rows, 5 ≤ r.length) →
      ∃ h2, split_ip_from_csv (header :: rows) = .ok (h2 :: rows.map splitIpRow) ∧
        (rows.map splitIpRow).length = rows.length) ∧
    (7 ≤ header.length → (∀ r ∈ rows, 7 ≤ r.length) →
      ∃ h2, classify_ip_from_csv (header :: rows) = .ok (h2 :: rows.map classifyRow) ∧
        (rows.map classifyRow).length = rows.length) ∧
    (∀ t : PTable, "Message" ∈ t.header →
      ∃ t2, extract_protocol_table t = .ok t2 ∧ t2.rows.length = t.rows.length) ∧
    (∀ t : PTable, "Message" ∈ t.header →
      ∃ t2, extract_severity_level_table t = .ok t2 ∧ t2.rows.length = t.rows.length) ∧
    (∀ t : PTable, "Message" ∈ t.header →
      ∃ t2, extract_severity_table t = .ok t2 ∧ t2.rows.length = t.rows.length) ∧
    (∀ r : Row, 4 ≤ r.length → extract_routing_from_message (r.getD 3 "") = none →
      (routingRow r).getD 3 "" = "") := by
  refine ⟨?_, ?_, ?_, ?_, ?_, ?_, ?_⟩
  · intro hh hw
    have hne : ¬ header.isEmpty = true := by
      rcases header with _ | ⟨c, t⟩
      · simp at hh
      · simp
    refine ⟨header.take 3 ++ ["routing"] ++ [header.getD 3 ""], ?_, by simp⟩
    unfold extract_routing_from_csv
    show (if header.isEmpty = true then
        Except.ok (rows.filterMap fun r => if 4 ≤ r.length then some (routingRow r) else none)
      else if 4 ≤ header.length then
        Except.ok ((header.take 3 ++ ["routing"] ++ [header.getD 3 ""]) ::
          rows.filterMap fun r => if 4 ≤ r.length then some (routingRow r) else none)
      else Except.error "ExtractRoutingError: IndexError") = _
    rw [if_neg hne, if_pos hh, filterMap_guard_all _ _ _ hw]
  · intro hh hw
    have hne : ¬ header.isEmpty = true := by
      rcases header with _ | ⟨c, t⟩
      · simp at hh
      · simp
    refine ⟨header.take 4 ++ ["srcIP", "dstIP"] ++ [header.getD 4 ""], ?_, by simp⟩
    unfold split_ip_from_csv
    show (if header.isEmpty = true then
        Except.ok (rows.filterMap fun r => if 5 ≤ r.length then some (splitIpRow r) else none)
      else if 5 ≤ header.length then
        Except.ok ((header.take 4 ++ ["srcIP", "dstIP"] ++ [header.getD 4 ""]) ::
          rows.filterMap fun r => if 5 ≤ r.length then some (splitIpRow r) else none)
      else Except.error "SplitIPError: IndexError") = _
    rw [if_neg hne, if_pos hh, filterMap_guard_all _ _ _ hw]
  · intro hh hw
    have hne : ¬ header.isEmpty = true := by
      rcases header with _ | ⟨c, t⟩
      · simp at hh
      · simp
    refine ⟨header.take 5 ++ ["srcIP_type"] ++ [header.getD 5 ""]
      ++ ["dstIP_type"] ++ [header.getD 6 ""], ?_, by simp⟩
    unfold classify_ip_from_csv
    show (if header.isEmpty = true then
        Except.ok (rows.filterMap fun r => if 7 ≤ r.length then some (classifyRow r) else none)
      else if 7 ≤ header.length then
        Except.ok ((header.take 5 ++ ["srcIP_type"] ++ [header.getD 5 ""]
            ++ ["dstIP_type"] ++ [header.getD 6 ""]) ::
          rows.filterMap fun r => if 7 ≤ r.length then some (classifyRow r) else none)
      else Except.error "ClassifyIPError: IndexError") = _
    rw [if_neg hne, if_pos hh, filterMap_guard_all _ _ _ hw]
  · intro t hm
    unfold extract_protocol_table addColBeforeMessage
    rw [if_pos hm]
    exact ⟨_, rfl, by simp⟩
  · intro t hm
    unfold extract_severity_level_table addColBeforeMessage
    rw [if_pos hm]
    exact ⟨_, rfl, by simp⟩
  · intro t hm
    unfold extract_severity_table addColBeforeMessage
    rw [if_pos hm]
    exact ⟨_, rfl, by simp⟩
  · intro r hr hm
    unfold routingRow
    rw [hm]
    have hlen : (r.take 3).length = 3 := by
      rw [List.length_take]
      omega
    simp [List.getD_eq_getElem?_getD, List.getElem?_append, hlen,
      List.getElem_append_right, List.getElem_append]

/-- C8 counterexample: the classification stage drops a data row with fewer
than 7 cells: one data row in, none out, so the row count is not preserved
on this input. -/
theorem classify_drops_short_rows :
    classify_ip_from_csv
        [["Timestamp", "Hostname", "AppName", "routing", "srcIP", "dstIP", "Message"],
         ["onlyonecell"]] =
      .ok [["Timestamp", "Hostname", "AppName", "routing", "srcIP", "srcIP_type",
            "dstIP", "dstIP_type", "Message"]] := by
  rfl

/-- Witness for the amended C8 at a concrete one-row file. -/
theorem row_transform_stages_witness :
    ∃ h2, extract_routing_from_csv
        [["Timestamp", "Hostname", "AppName", "Message"],
         ["t", "h", "a", "A 10.0.0.5/123 > 8.8.8.8/80 z"]] =
      .ok (h2 :: [(["t", "h", "a", "A 10.0.0.5/123 > 8.8.8.8/80 z"] : Row)].map routingRow) ∧
      ([(["t", "h", "a", "A 10.0.0.5/123 > 8.8.8.8/80 z"] : Row)].map routingRow).length =
        [(["t", "h", "a", "A 10.0.0.5/123 > 8.8.8.8/80 z"] : Row)].length :=
  (row_transform_stages ["Timestamp", "Hostname", "AppName", "Message"]
    [["t", "h", "a", "A 10.0.0.5/123 > 8.8.8.8/80 z"]]).1 (by decide) (by decide)

/-- C1: merge and rechunk.  For every list of input files and every positive
row ceiling, the concatenation of the data rows of the output chunks equals
the concatenation of the data rows of the input files in sorted file-name
order then within-file order; every chunk holds between 1 and maxRows data
rows; every chunk except possibly the last holds exactly maxRows; and when
the inputs contain zero data rows no chunk file is produced. -/
theorem merge_rechunk_spec (files : List MFile) (maxRows : Nat) (hmax : 1 ≤ maxRows) :
    ((mergeCsvFiles files maxRows).map List.tail).flatten =
      ((sortByName files).map fun f => f.rows.tail).flatten ∧
    (∀ c ∈ mergeCsvFiles files maxRows, c.tail.length ≤ maxRows ∧ 1 ≤ c.tail.length) ∧
    (∀ c ∈ (mergeCsvFiles files maxRows).dropLast, c.tail.length = maxRows) ∧
    (((sortByName files).map fun f => f.rows.tail).flatten = [] →
      mergeCsvFiles files maxRows = []) := by
  obtain ⟨m1, m2, m3, m4⟩ := mergeCsvFiles_master files maxRows
  refine ⟨m1, ?_, ?_, m4⟩
  · intro c hc
    obtain ⟨h, d, _, hcd, hd1, hdm⟩ := m2 c hc
    rw [hcd]
    exact ⟨by simpa using hdm hmax, by simpa using hd1⟩
  · intro c hc
    obtain ⟨h, d, hcd, hdm⟩ := m3 c hc
    rw [hcd]
    simpa using hdm hmax

/-- Witness for C1: two files, five data rows, ceiling 2. -/
theorem merge_rechunk_spec_witness :
    ((mergeCsvFiles [⟨"b.csv", [["H"], ["r4"], ["r5"]]⟩,
        ⟨"a.csv", [["H"], ["r1"], ["r2"], ["r3"]]⟩] 2).map List.tail).flatten =
      ((sortByName [⟨"b.csv", [["H"], ["r4"], ["r5"]]⟩,
        ⟨"a.csv", [["H"], ["r1"], ["r2"], ["r3"]]⟩]).map fun f => f.rows.tail).flatten :=
  (merge_rechunk_spec [⟨"b.csv", [["H"], ["r4"], ["r5"]]⟩,
    ⟨"a.csv", [["H"], ["r1"], ["r2"], ["r3"]]⟩] 2 (by decide)).1

/-- C10: every chunk written by merge_csv_files begins with the header of
the first non-empty input file in sorted name order, and the concatenated
data parts of the chunks are exactly the concatenated non-header rows of
the sorted inputs, so no later file's header row is ever emitted as a data
row. -/
theorem merge_chunk_headers (files : List MFile) (maxRows : Nat) :
    (∀ c ∈ mergeCsvFiles files maxRows,
      ∃ h d, firstHeader (sortByName files) = some h ∧ c = h :: d) ∧
    ((mergeCsvFiles files maxRows).map List.tail).flatten =
      ((sortByName files).map fun f => f.rows.tail).flatten := by
  obtain ⟨m1, m2, _, _⟩ := mergeCsvFiles_master files maxRows
  refine ⟨?_, m1⟩
  intro c hc
  obtain ⟨h, d, ha2, hb2, _, _⟩ := m2 c hc
  exact ⟨h, d, ha2, hb2⟩

/-- Witness for C10 at the first chunk of a concrete merge. -/
theorem merge_chunk_headers_witness :
    ∃ h d, firstHeader (sortByName [(⟨"b.csv", [["H"], ["r4"], ["r5"]]⟩ : MFile),
        ⟨"a.csv", [["H"], ["r1"], ["r2"], ["r3"]]⟩]) = some h ∧
      ([["H"], ["r1"], ["r2"]] : List Row) = h :: d :=
  (merge_chunk_headers [⟨"b.csv", [["H"], ["r4"], ["r5"]]⟩,
    ⟨"a.csv", [["H"], ["r1"], ["r2"], ["r3"]]⟩] 2).1 [["H"], ["r1"], ["r2"]] (by decide)

end JSF
